import Mathlib

/-!
Verification of the watch-compile-emit-supervise loop of `src/watch.ts`.

The embedding below translates the module `src/watch.ts` (the only source
file of the repository's core) into Lean:

* File-system paths are modeled as lists of path components
  (`path.basename` is the last component, `path.join dir f` appends a
  component).  Writing a file is recorded as a `(path, content)` pair and
  the file system is an association list where the most recent write to a
  path shadows older ones.
* `emitFiles` mirrors `emitFiles` of `src/watch.ts` lines 37-69: the
  per-file `switch` on `path.basename(name)` (head block prepended to
  `conf.lua`, tail block appended to `main.lua`, everything else written
  verbatim), the `wroteConf` fallback write, and the module-scoped
  `lumeContent` / `lurkerContent` guard for the two runtime-support shims.
* `runPass` mirrors the `afterProgramCreate` callback installed by
  `updateWatchCompilationHost` (lines 100-183): affected-file collection
  when `fullRecompile` is false, the call to the transpiler (an oracle
  parameter, since `typescript-to-lua` is an external collaborator),
  emission, diagnostic sorting/de-duplication/reporting, the error count,
  the `fullRecompile` update, and the `loveIsRunning`-guarded spawn.
* `runSession` threads the module-scoped mutable state (`fullRecompile`,
  `loveIsRunning`, the shim contents and the output file system) through a
  sequence of passes.
* `childCloseHandler` / `childCloseEffects` model the `child.on("close")`
  callback at lines 176-179, where `ts.sys.exit(0)` terminates the host
  before the `rimraf` statement that follows it can run.
* `shouldBePretty` mirrors lines 80-84.  The module initializes
  `reportDiagnostic = tstl.createDiagnosticReporter(false)` at line 75 and
  no code path of the module ever calls `updateReportDiagnostic`, so the
  per-diagnostic renderer keeps its initial non-pretty flag for the whole
  session; `sessionDiagnosticReporterPretty` records that initial flag.
-/

namespace LoveTS

/-- A file-system path, as a list of path components.  `path.basename`
is the last component and `path.join dir file` appends a component. -/
abbrev Path := List String

/-- Model of node's `path.basename`: the last path component. -/
def basename (p : Path) : String := p.getLastD ""

/-- Model of `path.join dir file` for a single appended file name. -/
def pathJoin (d : Path) (f : String) : Path := d ++ [f]

/-- The boot-configuration file name `conf.lua` (`src/watch.ts` line 41). -/
def confFileName : String := "conf.lua"

/-- The entry-point file name `main.lua` (`src/watch.ts` line 46). -/
def mainFileName : String := "main.lua"

/-- The first runtime-support file name (`src/watch.ts` line 66). -/
def lumeFileName : String := "lume.lua"

/-- The second runtime-support file name (`src/watch.ts` line 67). -/
def lurkerFileName : String := "lurker.lua"

/-- The runtime executable name (`src/watch.ts` line 175). -/
def lovecCommand : String := "lovec"

/-- The fixed head block `luaConfHead` of `src/watch.ts` lines 9-12. -/
def luaConfHead : String :=
  "\npackage.path = package.path .. \";node_modules/?/init.lua\"\npackage.path = package.path .. \";node_modules/?/?.lua\"\n"

/-- The fixed tail block `luaMainTail` of `src/watch.ts` lines 14-22. -/
def luaMainTail : String :=
  "\nlocal oldUpdate = love.update\nfunction love.update(delta)\n    if oldUpdate then\n        oldUpdate(delta)\n    end\n    require(\"lurker\").update()\nend\n"

/-- `ts.DiagnosticCategory`: `Warning = 0`, `Error = 1`, `Suggestion = 2`,
`Message = 3` (the TypeScript enumeration consumed by `watch.ts`). -/
def errorCategory : Nat := 1

/-- A TypeScript diagnostic, with the fields `ts.sortAndDeduplicateDiagnostics`
compares (file, start, length, code, message) plus its severity category. -/
structure Diagnostic where
  file : String
  start : Nat
  length : Nat
  code : Nat
  category : Nat
  message : String
deriving DecidableEq, Repr

/-- The predicate `d.category === ts.DiagnosticCategory.Error` used at
`src/watch.ts` line 167. -/
def isErrorDiagnostic (d : Diagnostic) : Bool := d.category == errorCategory

/-- TypeScript's `compareDiagnostics` comparison key: file name, then
position, then length, then code, then message text, lexicographically. -/
def diagCompare : Diagnostic → Diagnostic → Ordering :=
  compareLex (compareOn (·.file))
    (compareLex (compareOn (·.start))
      (compareLex (compareOn (·.length))
        (compareLex (compareOn (·.code)) (compareOn (·.message)))))

instance : Batteries.TransCmp diagCompare := by
  unfold diagCompare
  infer_instance

/-- The non-strict order induced by `diagCompare`, used to model the
stable sort inside `ts.sortAndDeduplicateDiagnostics`. -/
def diagLE (a b : Diagnostic) : Prop := diagCompare a b ≠ Ordering.gt

/-- The strict order induced by `diagCompare`. -/
def diagLT (a b : Diagnostic) : Prop := diagCompare a b = Ordering.lt

instance : DecidableRel diagLE := fun _ _ => by
  unfold diagLE
  infer_instance

instance : DecidableRel diagLT := fun _ _ => by
  unfold diagLT
  infer_instance

instance : IsTotal Diagnostic diagLE where
  total a b := by
    unfold diagLE
    rcases h : diagCompare a b with _ | _ | _
    · exact Or.inl (by simp [h])
    · exact Or.inl (by simp [h])
    · exact Or.inr (by simp [Batteries.OrientedCmp.cmp_eq_gt.mp h])

instance : IsTrans Diagnostic diagLE where
  trans _ _ _ h₁ h₂ := Batteries.TransCmp.le_trans h₁ h₂

/-- The stable sort step of `ts.sortAndDeduplicateDiagnostics`, modeled by
insertion sort under the comparator's non-strict order. -/
def sortDiagnostics (l : List Diagnostic) : List Diagnostic :=
  List.insertionSort diagLE l

/-- The de-duplication loop of `ts.deduplicateSorted`: walk the sorted
list keeping the most recently kept element, dropping every element that
compares equal to it. -/
def dedupAux (last : Diagnostic) : List Diagnostic → List Diagnostic
  | [] => []
  | d :: rest =>
    if diagCompare d last = Ordering.eq then dedupAux last rest
    else d :: dedupAux d rest

/-- `ts.deduplicateSorted`: keep the first element of every run of
comparator-equal elements of an already sorted list. -/
def deduplicateSorted : List Diagnostic → List Diagnostic
  | [] => []
  | d :: rest => d :: dedupAux d rest

/-- `ts.sortAndDeduplicateDiagnostics` (`src/watch.ts` line 156): sort by
`compareDiagnostics`, then drop comparator-equal duplicates. -/
def sortAndDeduplicateDiagnostics (l : List Diagnostic) : List Diagnostic :=
  deduplicateSorted (sortDiagnostics l)

/-- One result of `builderProgram.getSemanticDiagnosticsOfNextAffectedFile`:
the affected unit is either a single source file or a whole program
(`"fileName" in currentFile.affected` at `src/watch.ts` line 143). -/
inductive Affected where
  | file (fileName : String)
  | program (sourceFileNames : List String)
deriving DecidableEq, Repr

/-- The per-unit contribution of the loop body at `src/watch.ts`
lines 143-147: a file unit contributes itself, a program unit contributes
all of its source files (`affected.getSourceFiles()`). -/
def affectedUnitFiles : Affected → List String
  | Affected.file f => [f]
  | Affected.program fs => fs

/-- The `while (true)` collection loop of `src/watch.ts` lines 138-148,
consuming the builder's affected-unit stream and accumulating the
`sourceFiles` array. -/
def collectAffectedLoop : List Affected → List String → List String
  | [], acc => acc
  | Affected.file f :: rest, acc => collectAffectedLoop rest (acc ++ [f])
  | Affected.program fs :: rest, acc => collectAffectedLoop rest (acc ++ fs)

/-- A generated output file (`tstl.OutputFile`): absolute path and text. -/
structure OutputFile where
  name : Path
  text : String
deriving DecidableEq, Repr

/-- The module-scoped `lumeContent` / `lurkerContent` variables of
`src/watch.ts` lines 34-35 (`none` models `undefined`). -/
structure ShimState where
  lumeContent : Option String
  lurkerContent : Option String
deriving DecidableEq, Repr

/-- JavaScript falsiness of a `string | undefined` value, as tested by
`!lumeContent && !lurkerContent` at `src/watch.ts` line 61: `undefined`
and the empty string are falsy. -/
def optFalsy : Option String → Bool
  | none => true
  | some s => s == ""

/-- The writes and state change performed by one `emitFiles` call. -/
structure EmitResult where
  writes : List (Path × String)
  shimCopied : Bool
  shims : ShimState
deriving DecidableEq, Repr

/-- `emitFiles` of `src/watch.ts` lines 37-69.  Per output file, the
`switch` on `path.basename(name)` prepends the head block to `conf.lua`
files, appends the tail block to `main.lua` files, and writes everything
else verbatim, while `wroteConf` records whether some `conf.lua` file was
seen; if none was, the head block alone is written to `outDir/conf.lua`.
Finally, when both module-scoped shim contents are still unset, the two
bundled runtime-support files (whose on-disk contents are the
`lumeDisk` / `lurkerDisk` parameters) are read and copied into `outDir`. -/
def emitFiles (outputFiles : List OutputFile) (outDir : Path) (st : ShimState)
    (lumeDisk lurkerDisk : String) : EmitResult :=
  let fileWrites := outputFiles.map (fun f =>
    if basename f.name = confFileName then (f.name, luaConfHead ++ "\n" ++ f.text)
    else if basename f.name = mainFileName then (f.name, f.text ++ "\n" ++ luaMainTail)
    else (f.name, f.text))
  let wroteConf := outputFiles.any (fun f => basename f.name == confFileName)
  let confWrites := if wroteConf then [] else [(pathJoin outDir confFileName, luaConfHead)]
  let copyShims := optFalsy st.lumeContent && optFalsy st.lurkerContent
  let shimWrites :=
    if copyShims then
      [(pathJoin outDir lumeFileName, lumeDisk), (pathJoin outDir lurkerFileName, lurkerDisk)]
    else []
  { writes := fileWrites ++ confWrites ++ shimWrites
    shimCopied := copyShims
    shims :=
      if copyShims then { lumeContent := some lumeDisk, lurkerContent := some lurkerDisk }
      else st }

/-- A host standard stream inherited by the spawned runtime process. -/
inductive HostStream where
  | stdin
  | stdout
  | stderr
deriving DecidableEq, Repr

/-- One `spawn` invocation: command, positional arguments and the stdio
configuration (`src/watch.ts` line 175). -/
structure SpawnRec where
  cmd : String
  args : List Path
  stdio : List HostStream
deriving DecidableEq, Repr

/-- The inputs a single `afterProgramCreate` invocation draws from the
current program and builder state: the six diagnostic sources and the
affected-unit stream, plus the transpiler itself
(`tstl.transpile` composed with `tstl.emitTranspiledFiles`), which is an
external collaborator and therefore enters as an oracle from the
requested `sourceFiles` restriction to output files and emit
diagnostics. -/
structure PassInput where
  configFileParsingDiagnostics : List Diagnostic
  optionsDiagnostics : List Diagnostic
  syntacticDiagnostics : List Diagnostic
  globalDiagnostics : List Diagnostic
  semanticDiagnostics : List Diagnostic
  affectedStream : List Affected
  transpile : Option (List String) → List OutputFile × List Diagnostic

/-- The file system of the output directory: most recent write first. -/
abbrev FS := List (Path × String)

/-- Look up the current content of a path (most recent write wins). -/
def fsFind (p : Path) : FS → Option String
  | [] => none
  | w :: rest => if w.1 = p then some w.2 else fsFind p rest

/-- Apply a sequence of writes, in order, to the file system. -/
def fsApply (fs : FS) (writes : List (Path × String)) : FS :=
  writes.foldl (fun acc w => w :: acc) fs

/-- The pretty flag of the per-diagnostic reporter for the whole session:
`reportDiagnostic` is initialized with `tstl.createDiagnosticReporter(false)`
at `src/watch.ts` line 75 and `updateReportDiagnostic` is never invoked
anywhere in the module, so the flag never changes. -/
def sessionDiagnosticReporterPretty : Bool := false

/-- `shouldBePretty` of `src/watch.ts` lines 80-84.  `writeOutputIsTTY`
models `ts.sys.writeOutputIsTTY` (`none` when the host provides no such
method, otherwise its result); the option argument is the `pretty`
compiler option (`none` when `options` is absent or `options.pretty` is
`undefined`, modeled as an optional record with an optional flag). -/
def shouldBePretty (writeOutputIsTTY : Option Bool) : Option (Option Bool) → Bool
  | none => writeOutputIsTTY.getD false
  | some none => writeOutputIsTTY.getD false
  | some (some b) => b

/-- What `updateReportDiagnostic` of `src/watch.ts` lines 76-78 would set
the per-diagnostic renderer's pretty flag to, were it ever called. -/
def updateReportDiagnosticPretty (writeOutputIsTTY : Option Bool)
    (options : Option (Option Bool)) : Bool :=
  shouldBePretty writeOutputIsTTY options

/-- Everything one pass (one `afterProgramCreate` invocation) does, in
the order the source performs it: mode read, `sourceFiles` restriction
passed to the transpiler, transpiled output, file writes, shim copy flag,
reported diagnostic list with the renderer's pretty flag, the error count
given to the watch-status summary, and the spawn actions performed. -/
structure PassResult where
  modeFull : Bool
  sourceFilesArg : Option (List String)
  emitted : List OutputFile
  writes : List (Path × String)
  shimCopied : Bool
  reported : List Diagnostic
  reportPretty : Bool
  errorCount : Nat
  spawned : List SpawnRec
deriving DecidableEq, Repr

/-- The module-scoped session state threaded between passes:
`fullRecompile` (line 104), `loveIsRunning` (line 107), the shim
contents (lines 34-35) and the output directory's file system. -/
structure SessionState where
  fullRecompile : Bool
  loveIsRunning : Bool
  shims : ShimState
  fs : FS
deriving DecidableEq, Repr

/-- One `afterProgramCreate` invocation (`src/watch.ts` lines 109-182):
collect affected files unless `fullRecompile` is set, transpile with that
restriction, emit, sort/de-duplicate/report the merged diagnostics,
count the `Error`-severity ones, set `fullRecompile` for the next pass,
report the summary, and spawn the runtime once guarded by
`loveIsRunning`. -/
def runPass (outDir : Path) (lumeDisk lurkerDisk : String)
    (st : SessionState) (inp : PassInput) : PassResult × SessionState :=
  let sourceFiles : Option (List String) :=
    if st.fullRecompile then none else some (collectAffectedLoop inp.affectedStream [])
  let tr := inp.transpile sourceFiles
  let transpiledFiles := tr.1
  let emitDiagnostics := tr.2
  let er := emitFiles transpiledFiles outDir st.shims lumeDisk lurkerDisk
  let diagnostics := sortAndDeduplicateDiagnostics
    (inp.configFileParsingDiagnostics ++ inp.optionsDiagnostics ++
      inp.syntacticDiagnostics ++ inp.globalDiagnostics ++
      inp.semanticDiagnostics ++ emitDiagnostics)
  let errors := diagnostics.filter isErrorDiagnostic
  let spawned : List SpawnRec :=
    if st.loveIsRunning then []
    else [{ cmd := lovecCommand, args := [outDir],
            stdio := [HostStream.stdin, HostStream.stdout, HostStream.stderr] }]
  ({ modeFull := st.fullRecompile
     sourceFilesArg := sourceFiles
     emitted := transpiledFiles
     writes := er.writes
     shimCopied := er.shimCopied
     reported := diagnostics
     reportPretty := sessionDiagnosticReporterPretty
     errorCount := errors.length
     spawned := spawned },
   { fullRecompile := decide (errors.length > 0)
     loveIsRunning := true
     shims := er.shims
     fs := fsApply st.fs er.writes })

/-- A whole watch session: run the passes in order, threading the
module-scoped state. -/
def runSession (outDir : Path) (lumeDisk lurkerDisk : String) :
    List PassInput → SessionState → List PassResult × SessionState
  | [], st => ([], st)
  | inp :: rest, st =>
    let pr := runPass outDir lumeDisk lurkerDisk st inp
    let rs := runSession outDir lumeDisk lurkerDisk rest pr.2
    (pr.1 :: rs.1, rs.2)

/-- The module-scoped state at session start: `fullRecompile = true`
(line 104), `loveIsRunning = false` (line 107), both shim contents
`undefined` (lines 34-35) and an empty output directory. -/
def initialSessionState : SessionState where
  fullRecompile := true
  loveIsRunning := false
  shims := { lumeContent := none, lurkerContent := none }
  fs := []

/-- An action of the supervisor's close handler. -/
inductive SupAction where
  | exit (code : Nat)
  | rimraf (dir : Path)
deriving DecidableEq, Repr

/-- The statements of the `child.on("close", ...)` callback of
`src/watch.ts` lines 176-179, in source order: `ts.sys.exit(0)` first,
then `rimraf(outDir, {}, () => {})`.  The callback declares no parameter,
so the child's exit code (the second argument here) is ignored. -/
def childCloseHandler (outDir : Path) (_childCode : Int) : List SupAction :=
  [SupAction.exit 0, SupAction.rimraf outDir]

/-- Execution of a statement list where `ts.sys.exit` (node's
`process.exit`) terminates the process: statements after an `exit` never
run. -/
def runSupActions : List SupAction → List SupAction
  | [] => []
  | SupAction.exit c :: _ => [SupAction.exit c]
  | SupAction.rimraf d :: rest => SupAction.rimraf d :: runSupActions rest

/-- The effects actually performed when the supervised child closes. -/
def childCloseEffects (outDir : Path) (childCode : Int) : List SupAction :=
  runSupActions (childCloseHandler outDir childCode)

/-! ### Unfolding lemmas for `runPass` -/

theorem runPass_modeFull_def (o : Path) (l k : String) (st : SessionState) (inp : PassInput) :
    (runPass o l k st inp).1.modeFull = st.fullRecompile := rfl

theorem runPass_sourceFilesArg_def (o : Path) (l k : String) (st : SessionState)
    (inp : PassInput) :
    (runPass o l k st inp).1.sourceFilesArg
      = (if st.fullRecompile then none else some (collectAffectedLoop inp.affectedStream [])) :=
  rfl

theorem runPass_emitted_def (o : Path) (l k : String) (st : SessionState) (inp : PassInput) :
    (runPass o l k st inp).1.emitted
      = (inp.transpile (runPass o l k st inp).1.sourceFilesArg).1 := rfl

theorem runPass_writes_def (o : Path) (l k : String) (st : SessionState) (inp : PassInput) :
    (runPass o l k st inp).1.writes
      = (emitFiles (runPass o l k st inp).1.emitted o st.shims l k).writes := rfl

theorem runPass_shimCopied_def (o : Path) (l k : String) (st : SessionState) (inp : PassInput) :
    (runPass o l k st inp).1.shimCopied
      = (emitFiles (runPass o l k st inp).1.emitted o st.shims l k).shimCopied := rfl

theorem runPass_shims_def (o : Path) (l k : String) (st : SessionState) (inp : PassInput) :
    (runPass o l k st inp).2.shims
      = (emitFiles (runPass o l k st inp).1.emitted o st.shims l k).shims := rfl

theorem runPass_fs_def (o : Path) (l k : String) (st : SessionState) (inp : PassInput) :
    (runPass o l k st inp).2.fs = fsApply st.fs (runPass o l k st inp).1.writes := rfl

theorem runPass_reported_def (o : Path) (l k : String) (st : SessionState) (inp : PassInput) :
    (runPass o l k st inp).1.reported
      = sortAndDeduplicateDiagnostics
          (inp.configFileParsingDiagnostics ++ inp.optionsDiagnostics ++
            inp.syntacticDiagnostics ++ inp.globalDiagnostics ++
            inp.semanticDiagnostics ++
            (inp.transpile (runPass o l k st inp).1.sourceFilesArg).2) := rfl

theorem runPass_errorCount_def (o : Path) (l k : String) (st : SessionState) (inp : PassInput) :
    (runPass o l k st inp).1.errorCount
      = ((runPass o l k st inp).1.reported.filter isErrorDiagnostic).length := rfl

theorem runPass_nextFull_def (o : Path) (l k : String) (st : SessionState) (inp : PassInput) :
    (runPass o l k st inp).2.fullRecompile
      = decide (0 < (runPass o l k st inp).1.errorCount) := rfl

theorem runPass_loveIsRunning_def (o : Path) (l k : String) (st : SessionState)
    (inp : PassInput) :
    (runPass o l k st inp).2.loveIsRunning = true := rfl

theorem runPass_spawned_def (o : Path) (l k : String) (st : SessionState) (inp : PassInput) :
    (runPass o l k st inp).1.spawned
      = (if st.loveIsRunning then []
         else [{ cmd := lovecCommand, args := [o],
                 stdio := [HostStream.stdin, HostStream.stdout, HostStream.stderr] }]) := rfl

/-! ### The recompilation-mode policy (claim C1) -/

theorem decide_filter_pos_eq_any {α : Type} (p : α → Bool) (l : List α) :
    decide ((List.filter p l).length > 0) = l.any p := by
  induction l with
  | nil => rfl
  | cons a t ih =>
    cases h : p a
    · simp only [List.filter_cons, h, Bool.false_eq_true, if_false, List.any_cons,
        Bool.false_or]
      exact ih
    · simp [List.filter_cons, h]

theorem runPass_next_full (o : Path) (l k : String) (st : SessionState) (inp : PassInput) :
    (runPass o l k st inp).2.fullRecompile
      = (runPass o l k st inp).1.reported.any isErrorDiagnostic := by
  rw [runPass_nextFull_def, runPass_errorCount_def]
  exact decide_filter_pos_eq_any isErrorDiagnostic (runPass o l k st inp).1.reported

theorem session_modes (o : Path) (l k : String) (inps : List PassInput) (st : SessionState) :
    (runSession o l k inps st).1.map (fun r => r.modeFull)
      = (st.fullRecompile ::
          (runSession o l k inps st).1.map
            (fun r => r.reported.any isErrorDiagnostic)).take inps.length := by
  induction inps generalizing st with
  | nil => simp [runSession]
  | cons inp rest ih =>
    simp only [runSession, List.map_cons, List.length_cons, List.take_succ_cons]
    congr 1
    rw [ih ((runPass o l k st inp).2), runPass_next_full]

/-- C1: the first pass of a session runs in full mode, and every later
pass `N+1` runs in full mode exactly when pass `N`'s reported (sorted,
de-duplicated) diagnostic list contained at least one `Error`-severity
diagnostic, and in incremental mode otherwise.  The mode trace of a
session equals `true` followed by the per-pass error flags, shifted by
one pass. -/
theorem c1_first_pass_full_then_error_driven (o : Path) (l k : String)
    (inps : List PassInput) :
    (runSession o l k inps initialSessionState).1.map (fun r => r.modeFull)
      = (true ::
          (runSession o l k inps initialSessionState).1.map
            (fun r => r.reported.any isErrorDiagnostic)).take inps.length :=
  session_modes o l k inps initialSessionState

/-! ### The supervisor's close handler (claim C5) -/

/-- C5 fails on the code: the `close` callback at `src/watch.ts`
lines 176-179 calls `ts.sys.exit(0)` *before* the `rimraf` statement, so
the host terminates with exit code 0 (for every child exit code) and the
recursive deletion of the output directory is never performed. -/
theorem c5_exit_precedes_cleanup (outDir : Path) (childCode : Int) :
    childCloseEffects outDir childCode = [SupAction.exit 0] ∧
      SupAction.rimraf outDir ∉ childCloseEffects outDir childCode := by
  refine ⟨rfl, ?_⟩
  simp [childCloseEffects, childCloseHandler, runSupActions]

/-! ### Affected-unit collection (claim C7) -/

theorem collectAffectedLoop_eq (l : List Affected) (acc : List String) :
    collectAffectedLoop l acc = acc ++ l.flatMap affectedUnitFiles := by
  induction l generalizing acc with
  | nil => simp [collectAffectedLoop]
  | cons a rest ih =>
    cases a with
    | file f => simp [collectAffectedLoop, ih, affectedUnitFiles]
    | program fs => simp [collectAffectedLoop, ih, affectedUnitFiles]

/-- C7: in incremental mode the restriction handed to the transpiler is
exactly the affected-unit stream flattened (a file unit contributes that
file, a program unit contributes all of its source files), while in full
mode no restriction is passed; and the emitted output is the transpiler's
result for exactly that argument. -/
theorem c7_affected_units_passed (o : Path) (l k : String) (st : SessionState)
    (inp : PassInput) :
    ((runPass o l k st inp).1.sourceFilesArg
        = (if st.fullRecompile then none
           else some (inp.affectedStream.flatMap affectedUnitFiles))) ∧
      (runPass o l k st inp).1.emitted
        = (inp.transpile (runPass o l k st inp).1.sourceFilesArg).1 := by
  refine ⟨?_, runPass_emitted_def o l k st inp⟩
  rw [runPass_sourceFilesArg_def]
  by_cases h : st.fullRecompile <;> simp [h, collectAffectedLoop_eq]

/-! ### Diagnostic rendering is never pretty (claim C9) -/

/-- C9 fails on the code: `reportDiagnostic` is created with
`tstl.createDiagnosticReporter(false)` at `src/watch.ts` line 75 and
`updateReportDiagnostic` is never invoked, so every diagnostic of every
pass is rendered with the plain renderer even on an interactive terminal
with the `pretty` option unset, where `shouldBePretty` (and the dead
`updateReportDiagnostic`) would choose the pretty renderer. -/
theorem c9_diagnostics_always_plain :
    (∀ (o : Path) (l k : String) (st : SessionState) (inp : PassInput),
        (runPass o l k st inp).1.reportPretty = false) ∧
      sessionDiagnosticReporterPretty = false ∧
      shouldBePretty (some true) none = true ∧
      updateReportDiagnosticPretty (some true) none = true :=
  ⟨fun _ _ _ _ _ => rfl, rfl, rfl, rfl⟩

/-! ### Emission lemmas -/

theorem basename_pathJoin (d : Path) (s : String) : basename (pathJoin d s) = s := by
  simp [basename, pathJoin, List.getLastD_concat]

theorem emitFiles_conf_write (ofs : List OutputFile) (o : Path) (st : ShimState)
    (l k : String) (f : OutputFile) (hf : f ∈ ofs) (hb : basename f.name = confFileName) :
    (f.name, luaConfHead ++ "\n" ++ f.text) ∈ (emitFiles ofs o st l k).writes := by
  simp only [emitFiles]
  refine List.mem_append_left _ (List.mem_append_left _ (List.mem_map.mpr ⟨f, hf, ?_⟩))
  rw [if_pos hb]

theorem emitFiles_main_write (ofs : List OutputFile) (o : Path) (st : ShimState)
    (l k : String) (f : OutputFile) (hf : f ∈ ofs) (hb : basename f.name = mainFileName) :
    (f.name, f.text ++ "\n" ++ luaMainTail) ∈ (emitFiles ofs o st l k).writes := by
  simp only [emitFiles]
  refine List.mem_append_left _ (List.mem_append_left _ (List.mem_map.mpr ⟨f, hf, ?_⟩))
  rw [if_neg (by rw [hb]; decide), if_pos hb]

theorem emitFiles_conf_fallback (ofs : List OutputFile) (o : Path) (st : ShimState)
    (l k : String) (h : ∀ f ∈ ofs, basename f.name ≠ confFileName) :
    (pathJoin o confFileName, luaConfHead) ∈ (emitFiles ofs o st l k).writes := by
  simp only [emitFiles]
  have hw : (ofs.any fun f => basename f.name == confFileName) = false := by
    simp only [List.any_eq_false, beq_iff_eq]
    exact h
  rw [hw]
  simp

/-- Case analysis on one write of `emitFiles`: the write is the image of
some output file under the per-file `switch`, or the `conf.lua` fallback,
or one of the two shim copies. -/
theorem emitFiles_writes_cases (ofs : List OutputFile) (o : Path) (st : ShimState)
    (l k : String) (w : Path × String) (hw : w ∈ (emitFiles ofs o st l k).writes) :
    (∃ f ∈ ofs,
        w = (if basename f.name = confFileName then (f.name, luaConfHead ++ "\n" ++ f.text)
             else if basename f.name = mainFileName then (f.name, f.text ++ "\n" ++ luaMainTail)
             else (f.name, f.text))) ∨
      w = (pathJoin o confFileName, luaConfHead) ∨
      w = (pathJoin o lumeFileName, l) ∨ w = (pathJoin o lurkerFileName, k) := by
  simp only [emitFiles, List.mem_append] at hw
  rcases hw with (hw | hw) | hw
  · obtain ⟨f, hf, heq⟩ := List.mem_map.mp hw
    exact Or.inl ⟨f, hf, heq.symm⟩
  · right; left
    by_cases h : (ofs.any fun f => basename f.name == confFileName) = true
    · rw [if_pos h] at hw
      simp at hw
    · rw [if_neg h] at hw
      simpa using hw
  · right; right
    by_cases h : (optFalsy st.lumeContent && optFalsy st.lurkerContent) = true
    · rw [if_pos h] at hw
      simpa using hw
    · rw [if_neg h] at hw
      simp at hw

/-- Every write whose basename is `conf.lua` carries the head block as a
prefix of its content. -/
theorem emitFiles_conf_head (ofs : List OutputFile) (o : Path) (st : ShimState)
    (l k : String) (p : Path) (c : String)
    (hw : (p, c) ∈ (emitFiles ofs o st l k).writes) (hb : basename p = confFileName) :
    ∃ rest, c = luaConfHead ++ rest := by
  rcases emitFiles_writes_cases ofs o st l k (p, c) hw with ⟨f, _, heq⟩ | heq | heq | heq
  · by_cases hc : basename f.name = confFileName
    · rw [if_pos hc] at heq
      obtain ⟨-, hctext⟩ := Prod.mk.injEq .. ▸ heq
      exact ⟨"\n" ++ f.text, by rw [hctext, String.append_assoc]⟩
    · by_cases hm : basename f.name = mainFileName
      · rw [if_neg hc, if_pos hm] at heq
        obtain ⟨hp, -⟩ := Prod.mk.injEq .. ▸ heq
        rw [hp, hm] at hb
        exact absurd hb (by decide)
      · rw [if_neg hc, if_neg hm] at heq
        obtain ⟨hp, -⟩ := Prod.mk.injEq .. ▸ heq
        exact absurd (hp ▸ hb) hc
  · obtain ⟨-, hctext⟩ := Prod.mk.injEq .. ▸ heq
    exact ⟨"", by rw [hctext, String.append_empty]⟩
  · obtain ⟨hp, -⟩ := Prod.mk.injEq .. ▸ heq
    rw [hp, basename_pathJoin] at hb
    exact absurd hb (by decide)
  · obtain ⟨hp, -⟩ := Prod.mk.injEq .. ▸ heq
    rw [hp, basename_pathJoin] at hb
    exact absurd hb (by decide)

/-! ### File-system lemmas -/

theorem fsApply_eq (fs : FS) (ws : List (Path × String)) :
    fsApply fs ws = ws.reverse ++ fs := by
  induction ws generalizing fs with
  | nil => rfl
  | cons w rest ih =>
    show fsApply (w :: fs) rest = _
    rw [ih]
    simp

theorem fsFind_append_some (p : Path) (l₁ l₂ : FS) (c : String) (h : fsFind p l₁ = some c) :
    fsFind p (l₁ ++ l₂) = some c := by
  induction l₁ with
  | nil => simp [fsFind] at h
  | cons w rest ih =>
    by_cases hw : w.1 = p
    · simp only [fsFind, if_pos hw] at h
      simp only [List.cons_append, fsFind, if_pos hw]
      exact h
    · simp only [fsFind, if_neg hw] at h
      simp only [List.cons_append, fsFind, if_neg hw]
      exact ih h

theorem fsFind_mem (p : Path) (l : FS) (c : String) (h : fsFind p l = some c) : (p, c) ∈ l := by
  induction l with
  | nil => simp [fsFind] at h
  | cons w rest ih =>
    by_cases hw : w.1 = p
    · simp only [fsFind, if_pos hw, Option.some.injEq] at h
      exact List.mem_cons.mpr (Or.inl (by rw [← hw, ← h]))
    · simp only [fsFind, if_neg hw] at h
      exact List.mem_cons_of_mem _ (ih h)

theorem fsFind_isSome_of_mem (p : Path) (c : String) (l : FS) (h : (p, c) ∈ l) :
    ∃ c', fsFind p l = some c' := by
  induction l with
  | nil => simp at h
  | cons w rest ih =>
    by_cases hw : w.1 = p
    · exact ⟨w.2, by simp [fsFind, hw]⟩
    · rcases List.mem_cons.mp h with heq | hmem
      · exact absurd (congrArg Prod.fst heq.symm) hw
      · obtain ⟨c', hc'⟩ := ih hmem
        exact ⟨c', by simp [fsFind, hw, hc']⟩

/-- If a path is written during a pass and every write to this path
satisfies `P`, then after the pass the path's content in the file system
satisfies `P`, whatever the file system held before. -/
theorem fsFind_fsApply_pred (fs : FS) (ws : List (Path × String)) (p : Path)
    (P : String → Prop) (hmem : ∃ c, (p, c) ∈ ws) (hall : ∀ c, (p, c) ∈ ws → P c) :
    ∃ c, fsFind p (fsApply fs ws) = some c ∧ P c := by
  rw [fsApply_eq]
  obtain ⟨c, hc⟩ := hmem
  obtain ⟨c', hc'⟩ := fsFind_isSome_of_mem p c ws.reverse (List.mem_reverse.mpr hc)
  exact ⟨c', fsFind_append_some p ws.reverse fs c' hc',
    hall c' (List.mem_reverse.mp (fsFind_mem p ws.reverse c' hc'))⟩

/-! ### The boot-configuration invariant (claim C2) -/

/-- C2: any output file named `conf.lua` is written with the head block
prepended; when the pass's output contains no such file the head block
alone is written to `outDir/conf.lua`; consequently every pass performs a
`conf.lua` write whose content starts with the head block, and after the
pass the output file system maps some `conf.lua` path to head-prefixed
content, regardless of the file system's previous state. -/
theorem c2_boot_config_invariant (o : Path) (l k : String) (st : SessionState)
    (inp : PassInput) :
    (∀ f ∈ (runPass o l k st inp).1.emitted, basename f.name = confFileName →
        (f.name, luaConfHead ++ "\n" ++ f.text) ∈ (runPass o l k st inp).1.writes) ∧
      ((∀ f ∈ (runPass o l k st inp).1.emitted, basename f.name ≠ confFileName) →
        (pathJoin o confFileName, luaConfHead) ∈ (runPass o l k st inp).1.writes) ∧
      (∃ p c, (p, c) ∈ (runPass o l k st inp).1.writes ∧ basename p = confFileName ∧
        ∃ rest, c = luaConfHead ++ rest) ∧
      (∃ p c, fsFind p (runPass o l k st inp).2.fs = some c ∧ basename p = confFileName ∧
        ∃ rest, c = luaConfHead ++ rest) := by
  have hconf : ∀ f ∈ (runPass o l k st inp).1.emitted, basename f.name = confFileName →
      (f.name, luaConfHead ++ "\n" ++ f.text) ∈ (runPass o l k st inp).1.writes := by
    intro f hf hb
    rw [runPass_writes_def]
    exact emitFiles_conf_write _ o st.shims l k f hf hb
  have hfall : (∀ f ∈ (runPass o l k st inp).1.emitted, basename f.name ≠ confFileName) →
      (pathJoin o confFileName, luaConfHead) ∈ (runPass o l k st inp).1.writes := by
    intro h
    rw [runPass_writes_def]
    exact emitFiles_conf_fallback _ o st.shims l k h
  have hexists : ∃ p c, (p, c) ∈ (runPass o l k st inp).1.writes ∧
      basename p = confFileName ∧ ∃ rest, c = luaConfHead ++ rest := by
    by_cases h : ∀ f ∈ (runPass o l k st inp).1.emitted, basename f.name ≠ confFileName
    · exact ⟨pathJoin o confFileName, luaConfHead, hfall h, basename_pathJoin o confFileName,
        "", (String.append_empty luaConfHead).symm⟩
    · push_neg at h
      obtain ⟨f, hf, hb⟩ := h
      exact ⟨f.name, luaConfHead ++ "\n" ++ f.text, hconf f hf hb, hb,
        "\n" ++ f.text, String.append_assoc ..⟩
  refine ⟨hconf, hfall, hexists, ?_⟩
  obtain ⟨p, c, hw, hb, hrest⟩ := hexists
  have hall : ∀ c', (p, c') ∈ (runPass o l k st inp).1.writes →
      ∃ rest, c' = luaConfHead ++ rest := by
    intro c' hc'
    rw [runPass_writes_def] at hc'
    exact emitFiles_conf_head _ o st.shims l k p c' hc' hb
  obtain ⟨c', hfind, hP⟩ := fsFind_fsApply_pred st.fs (runPass o l k st inp).1.writes p
    (fun c' => ∃ rest, c' = luaConfHead ++ rest) ⟨c, hw⟩ hall
  exact ⟨p, c', by rw [runPass_fs_def]; exact hfind, hb, hP⟩

/-! ### Single spawn per session (claim C4) -/

theorem session_no_spawn (o : Path) (l k : String) (inps : List PassInput)
    (st : SessionState) (h : st.loveIsRunning = true) :
    (runSession o l k inps st).1.map (fun r => r.spawned)
      = List.replicate inps.length [] := by
  induction inps generalizing st with
  | nil => simp [runSession]
  | cons inp rest ih =>
    simp only [runSession, List.map_cons, List.length_cons, List.replicate_succ]
    congr 1
    · rw [runPass_spawned_def, if_pos h]
    · exact ih _ (runPass_loveIsRunning_def o l k st inp)

/-- C4: across a whole session started from the initial state, the
runtime process is spawned exactly once, by the first pass, as `lovec`
with the output directory as its sole positional argument inheriting the
host's standard input, output and error streams; every later pass spawns
nothing. -/
theorem c4_runtime_spawned_once (o : Path) (l k : String) (inps : List PassInput)
    (h : 0 < inps.length) :
    (runSession o l k inps initialSessionState).1.map (fun r => r.spawned)
      = [{ cmd := lovecCommand, args := [o],
           stdio := [HostStream.stdin, HostStream.stdout, HostStream.stderr] }]
          :: List.replicate (inps.length - 1) [] := by
  cases inps with
  | nil => simp at h
  | cons inp rest =>
    simp only [runSession, List.map_cons, List.length_cons, Nat.add_sub_cancel]
    congr 1
    exact session_no_spawn o l k rest _ (runPass_loveIsRunning_def o l k initialSessionState inp)

/-! ### No entry-point fallback, selection by basename (claim C10) -/

theorem emitFiles_no_main (ofs : List OutputFile) (o : Path) (st : ShimState)
    (l k : String) (h : ∀ f ∈ ofs, basename f.name ≠ mainFileName)
    (w : Path × String) (hw : w ∈ (emitFiles ofs o st l k).writes) :
    basename w.1 ≠ mainFileName := by
  rcases emitFiles_writes_cases ofs o st l k w hw with ⟨f, hf, heq⟩ | heq | heq | heq
  · have hname : w.1 = f.name := by
      by_cases hc : basename f.name = confFileName
      · rw [if_pos hc] at heq
        exact congrArg Prod.fst heq
      · by_cases hm : basename f.name = mainFileName
        · rw [if_neg hc, if_pos hm] at heq
          exact congrArg Prod.fst heq
        · rw [if_neg hc, if_neg hm] at heq
          exact congrArg Prod.fst heq
    rw [hname]
    exact h f hf
  · rw [congrArg Prod.fst heq, basename_pathJoin]
    decide
  · rw [congrArg Prod.fst heq, basename_pathJoin]
    decide
  · rw [congrArg Prod.fst heq, basename_pathJoin]
    decide

/-- C10: when a pass's output contains no file whose basename is
`main.lua`, the pass writes no file whose basename is `main.lua` — unlike
`conf.lua` there is no fallback for the entry point — and head/tail
injection is selected by basename alone, so output files named `conf.lua`
or `main.lua` in any subdirectory receive the corresponding block. -/
theorem c10_no_entry_point_fallback (o : Path) (l k : String) (st : SessionState)
    (inp : PassInput) :
    ((∀ f ∈ (runPass o l k st inp).1.emitted, basename f.name ≠ mainFileName) →
        ∀ w ∈ (runPass o l k st inp).1.writes, basename w.1 ≠ mainFileName) ∧
      (∀ f ∈ (runPass o l k st inp).1.emitted, basename f.name = confFileName →
        (f.name, luaConfHead ++ "\n" ++ f.text) ∈ (runPass o l k st inp).1.writes) ∧
      (∀ f ∈ (runPass o l k st inp).1.emitted, basename f.name = mainFileName →
        (f.name, f.text ++ "\n" ++ luaMainTail) ∈ (runPass o l k st inp).1.writes) := by
  refine ⟨?_, ?_, ?_⟩
  · intro h w hw
    rw [runPass_writes_def] at hw
    exact emitFiles_no_main _ o st.shims l k h w hw
  · intro f hf hb
    rw [runPass_writes_def]
    exact emitFiles_conf_write _ o st.shims l k f hf hb
  · intro f hf hb
    rw [runPass_writes_def]
    exact emitFiles_main_write _ o st.shims l k f hf hb

/-! ### One-time shim materialization (claim C3) -/

theorem emitFiles_copy (ofs : List OutputFile) (o : Path) (st : ShimState) (l k : String)
    (h : (optFalsy st.lumeContent && optFalsy st.lurkerContent) = true) :
    (emitFiles ofs o st l k).shimCopied = true ∧
      (emitFiles ofs o st l k).shims
        = { lumeContent := some l, lurkerContent := some k } := by
  constructor
  · simp only [emitFiles]
    exact h
  · simp only [emitFiles]
    rw [h]
    simp

theorem emitFiles_no_copy (ofs : List OutputFile) (o : Path) (st : ShimState) (l k : String)
    (h : (optFalsy st.lumeContent && optFalsy st.lurkerContent) = false) :
    (emitFiles ofs o st l k).shimCopied = false ∧ (emitFiles ofs o st l k).shims = st := by
  constructor
  · simp only [emitFiles]
    exact h
  · simp only [emitFiles]
    rw [h]
    simp

theorem emitFiles_shimCopied_writes (ofs : List OutputFile) (o : Path) (st : ShimState)
    (l k : String) (h : (emitFiles ofs o st l k).shimCopied = true) :
    (pathJoin o lumeFileName, l) ∈ (emitFiles ofs o st l k).writes ∧
      (pathJoin o lurkerFileName, k) ∈ (emitFiles ofs o st l k).writes := by
  simp only [emitFiles] at h ⊢
  rw [h]
  constructor <;> simp

theorem session_shim_writes (o : Path) (l k : String) (inps : List PassInput)
    (st : SessionState) :
    ∀ r ∈ (runSession o l k inps st).1, r.shimCopied = true →
      (pathJoin o lumeFileName, l) ∈ r.writes ∧ (pathJoin o lurkerFileName, k) ∈ r.writes := by
  induction inps generalizing st with
  | nil =>
    intro r hr
    simp [runSession] at hr
  | cons inp rest ih =>
    intro r hr hcopied
    simp only [runSession] at hr
    rcases List.mem_cons.mp hr with heq | hmem
    · subst heq
      rw [runPass_writes_def]
      rw [runPass_shimCopied_def] at hcopied
      exact emitFiles_shimCopied_writes _ o st.shims l k hcopied
    · exact ih _ r hmem hcopied

theorem session_no_shim_copy (o : Path) (l k : String) (inps : List PassInput) :
    ∀ st : SessionState, st.shims = { lumeContent := some l, lurkerContent := some k } →
      ¬(l = "" ∧ k = "") →
      (runSession o l k inps st).1.map (fun r => r.shimCopied)
        = List.replicate inps.length false := by
  induction inps with
  | nil =>
    intro st _ _
    simp [runSession]
  | cons inp rest ih =>
    intro st hs hne
    have hguard : (optFalsy st.shims.lumeContent && optFalsy st.shims.lurkerContent)
        = false := by
      rw [hs]
      by_cases hl : l = ""
      · have hk : ¬k = "" := fun hk => hne ⟨hl, hk⟩
        simp [optFalsy, hl, hk]
      · simp [optFalsy, hl]
    have hhead : (runPass o l k st inp).1.shimCopied = false := by
      rw [runPass_shimCopied_def]
      exact (emitFiles_no_copy _ o st.shims l k hguard).1
    have htail : (runSession o l k rest (runPass o l k st inp).2).1.map
        (fun r => r.shimCopied) = List.replicate rest.length false := by
      refine ih _ ?_ hne
      rw [runPass_shims_def, (emitFiles_no_copy _ o st.shims l k hguard).2]
      exact hs
    simp only [runSession, List.map_cons, List.length_cons, List.replicate_succ, hhead, htail]

/-- C3: started from the initial state (both module-scoped shim contents
`undefined`), the guarded copy of the two bundled runtime-support files
runs exactly once per session — on the first pass — however many passes
occur, and whenever it runs it writes `lume.lua` and `lurker.lua` into
the output directory.  The hypothesis that the two bundled files are not
both empty reflects JavaScript's falsiness test guarding the copy. -/
theorem c3_shims_copied_once (o : Path) (l k : String) (inps : List PassInput)
    (hne : ¬(l = "" ∧ k = "")) (hlen : 0 < inps.length) :
    ((runSession o l k inps initialSessionState).1.map (fun r => r.shimCopied)
        = true :: List.replicate (inps.length - 1) false) ∧
      ∀ r ∈ (runSession o l k inps initialSessionState).1, r.shimCopied = true →
        (pathJoin o lumeFileName, l) ∈ r.writes ∧ (pathJoin o lurkerFileName, k) ∈ r.writes := by
  constructor
  · cases inps with
    | nil => simp at hlen
    | cons inp rest =>
      have hhead : (runPass o l k initialSessionState inp).1.shimCopied = true := by
        rw [runPass_shimCopied_def]
        exact (emitFiles_copy _ o initialSessionState.shims l k rfl).1
      have htail : (runSession o l k rest (runPass o l k initialSessionState inp).2).1.map
          (fun r => r.shimCopied) = List.replicate rest.length false := by
        refine session_no_shim_copy o l k rest _ ?_ hne
        rw [runPass_shims_def]
        exact (emitFiles_copy _ o initialSessionState.shims l k rfl).2
      simp only [runSession, List.map_cons, List.length_cons, Nat.add_sub_cancel, hhead, htail]
  · exact session_shim_writes o l k inps initialSessionState

/-! ### Entry-point tail block (claim C6) -/

/-- Every write of a pass to a path whose basename is `main.lua`, when
that path occurs uniquely in the emitted output with text `t`, carries
exactly the content `t` followed by the tail block. -/
theorem emitFiles_main_unique (ofs : List OutputFile) (o : Path) (st : ShimState)
    (l k : String) (p : Path) (t : String) (hb : basename p = mainFileName)
    (huniq : ∀ f ∈ ofs, f.name = p → f = { name := p, text := t })
    (c : String) (hc : (p, c) ∈ (emitFiles ofs o st l k).writes) :
    c = t ++ "\n" ++ luaMainTail := by
  rcases emitFiles_writes_cases ofs o st l k (p, c) hc with ⟨f, hf, heq⟩ | heq | heq | heq
  · by_cases hcf : basename f.name = confFileName
    · rw [if_pos hcf] at heq
      obtain ⟨hp, -⟩ := Prod.mk.injEq .. ▸ heq
      rw [hp, hcf] at hb
      exact absurd hb (by decide)
    · by_cases hmf : basename f.name = mainFileName
      · rw [if_neg hcf, if_pos hmf] at heq
        obtain ⟨hp, hcx⟩ := Prod.mk.injEq .. ▸ heq
        have hfeq : f = { name := p, text := t } := huniq f hf hp.symm
        rw [hcx, congrArg OutputFile.text hfeq]
      · rw [if_neg hcf, if_neg hmf] at heq
        obtain ⟨hp, -⟩ := Prod.mk.injEq .. ▸ heq
        exact absurd (hp ▸ hb) hmf
  · obtain ⟨hp, -⟩ := Prod.mk.injEq .. ▸ heq
    rw [hp, basename_pathJoin] at hb
    exact absurd hb (by decide)
  · obtain ⟨hp, -⟩ := Prod.mk.injEq .. ▸ heq
    rw [hp, basename_pathJoin] at hb
    exact absurd hb (by decide)
  · obtain ⟨hp, -⟩ := Prod.mk.injEq .. ▸ heq
    rw [hp, basename_pathJoin] at hb
    exact absurd hb (by decide)

/-- C6: when a pass's output contains the entry-point file (uniquely, as
a path `p` with basename `main.lua` and text `t`), the pass writes it as
the user-generated content followed by exactly one copy of the tail
block, and after the pass the file system maps `p` to exactly
`t ++ "\n" ++ luaMainTail` — independent of the file system's and the
session's previous state, so re-emission replaces the wrapper rather
than stacking it across passes. -/
theorem c6_entry_point_single_tail (o : Path) (l k : String) (st : SessionState)
    (inp : PassInput) (p : Path) (t : String) (hb : basename p = mainFileName)
    (hf : (runPass o l k st inp).1.emitted.filter (fun f => f.name == p)
            = [{ name := p, text := t }]) :
    ((p, t ++ "\n" ++ luaMainTail) ∈ (runPass o l k st inp).1.writes) ∧
      fsFind p (runPass o l k st inp).2.fs = some (t ++ "\n" ++ luaMainTail) := by
  have hmem : ({ name := p, text := t } : OutputFile) ∈ (runPass o l k st inp).1.emitted := by
    have hx : ({ name := p, text := t } : OutputFile)
        ∈ (runPass o l k st inp).1.emitted.filter (fun f => f.name == p) := by
      rw [hf]
      exact List.mem_singleton_self _
    exact (List.mem_filter.mp hx).1
  have huniq : ∀ f ∈ (runPass o l k st inp).1.emitted, f.name = p →
      f = { name := p, text := t } := by
    intro f hfe hfp
    have hx : f ∈ (runPass o l k st inp).1.emitted.filter (fun f => f.name == p) :=
      List.mem_filter.mpr ⟨hfe, by rw [hfp]; simp⟩
    rw [hf] at hx
    simpa using hx
  have hw : (p, t ++ "\n" ++ luaMainTail) ∈ (runPass o l k st inp).1.writes := by
    rw [runPass_writes_def]
    exact emitFiles_main_write _ o st.shims l k { name := p, text := t } hmem hb
  refine ⟨hw, ?_⟩
  have hall : ∀ c, (p, c) ∈ (runPass o l k st inp).1.writes →
      c = t ++ "\n" ++ luaMainTail := by
    intro c hc
    rw [runPass_writes_def] at hc
    exact emitFiles_main_unique _ o st.shims l k p t hb huniq c hc
  obtain ⟨c, hfind, hcc⟩ := fsFind_fsApply_pred st.fs (runPass o l k st inp).1.writes p
    (fun c => c = t ++ "\n" ++ luaMainTail) ⟨_, hw⟩ hall
  rw [runPass_fs_def]
  exact hcc ▸ hfind

/-! ### Sortedness and de-duplication of reported diagnostics (claim C8) -/

theorem chain_congr_head {d e : Diagnostic} (hde : diagCompare d e = Ordering.eq)
    {l : List Diagnostic} (h : List.Chain diagLE e l) : List.Chain diagLE d l := by
  cases l with
  | nil => exact List.Chain.nil
  | cons r rs =>
    rw [List.chain_cons] at h ⊢
    refine ⟨?_, h.2⟩
    show diagCompare d r ≠ Ordering.gt
    rw [Batteries.TransCmp.cmp_congr_left hde]
    exact h.1

theorem chain_dedupAux (l : List Diagnostic) :
    ∀ d : Diagnostic, List.Chain diagLE d l → List.Chain' diagLT (d :: dedupAux d l) := by
  induction l with
  | nil =>
    intro d _
    simp [dedupAux]
  | cons e rest ih =>
    intro d h
    rw [List.chain_cons] at h
    by_cases heq : diagCompare e d = Ordering.eq
    · have hstep : dedupAux d (e :: rest) = dedupAux d rest := by
        simp only [dedupAux, if_pos heq]
      rw [hstep]
      exact ih d (chain_congr_head (Batteries.OrientedCmp.cmp_eq_eq_symm.mp heq) h.2)
    · have hstep : dedupAux d (e :: rest) = e :: dedupAux e rest := by
        simp only [dedupAux, if_neg heq]
      rw [hstep]
      have hlt : diagLT d e := by
        have hne : diagCompare d e ≠ Ordering.eq :=
          fun hx => heq (Batteries.OrientedCmp.cmp_eq_eq_symm.mp hx)
        show diagCompare d e = Ordering.lt
        rcases hx : diagCompare d e with _ | _ | _
        · rfl
        · exact absurd hx hne
        · exact absurd hx h.1
      show List.Chain diagLT d (e :: dedupAux e rest)
      rw [List.chain_cons]
      exact ⟨hlt, ih e h.2⟩

theorem chain'_deduplicateSorted (l : List Diagnostic) (h : List.Chain' diagLE l) :
    List.Chain' diagLT (deduplicateSorted l) := by
  cases l with
  | nil => simp [deduplicateSorted]
  | cons d rest =>
    have hch : List.Chain diagLE d rest := h
    exact chain_dedupAux rest d hch

theorem chain'_sortAndDeduplicate (dl : List Diagnostic) :
    List.Chain' diagLT (sortAndDeduplicateDiagnostics dl) :=
  chain'_deduplicateSorted _ (List.Pairwise.chain' (List.sorted_insertionSort diagLE dl))

/-- C8: a pass reports exactly the sorted, de-duplicated merge of the
configuration-parse, compiler-option, syntactic, global, semantic and
emit diagnostic lists (in that order); the reported list is strictly
ascending under the diagnostic comparator (sorted with no duplicates);
the summary's error count is exactly the number of `Error`-severity
entries of that de-duplicated list; and only that count (not the
non-Error entries) feeds the next pass's mode decision. -/
theorem c8_reported_diagnostics (o : Path) (l k : String) (st : SessionState)
    (inp : PassInput) :
    ((runPass o l k st inp).1.reported
        = sortAndDeduplicateDiagnostics
            (inp.configFileParsingDiagnostics ++ inp.optionsDiagnostics ++
              inp.syntacticDiagnostics ++ inp.globalDiagnostics ++
              inp.semanticDiagnostics ++
              (inp.transpile (runPass o l k st inp).1.sourceFilesArg).2)) ∧
      List.Chain' diagLT (runPass o l k st inp).1.reported ∧
      (runPass o l k st inp).1.errorCount
        = ((runPass o l k st inp).1.reported.filter isErrorDiagnostic).length ∧
      (runPass o l k st inp).1.errorCount
        = (runPass o l k st inp).1.reported.countP isErrorDiagnostic ∧
      (runPass o l k st inp).2.fullRecompile
        = decide (0 < (runPass o l k st inp).1.errorCount) := by
  refine ⟨runPass_reported_def o l k st inp, ?_, runPass_errorCount_def o l k st inp, ?_,
    runPass_nextFull_def o l k st inp⟩
  · rw [runPass_reported_def]
    exact chain'_sortAndDeduplicate _
  · rw [runPass_errorCount_def, List.countP_eq_length_filter]

/-! ### Concrete fixtures and witnesses -/

/-- A transpiler oracle returning a fixed output and no emit diagnostics,
for concrete instantiations. -/
def constTranspile (tf : List OutputFile) :
    Option (List String) → List OutputFile × List Diagnostic :=
  fun _ => (tf, [])

/-- A minimal pass input: no diagnostics, no affected units, fixed output. -/
def samplePassInput (tf : List OutputFile) : PassInput where
  configFileParsingDiagnostics := []
  optionsDiagnostics := []
  syntacticDiagnostics := []
  globalDiagnostics := []
  semanticDiagnostics := []
  affectedStream := []
  transpile := constTranspile tf

/-- A concrete output directory. -/
def sampleOutDir : Path := [r"out"]

/-- A concrete content for the first bundled shim. -/
def sampleLume : String := "lume"

/-- A concrete content for the second bundled shim. -/
def sampleLurker : String := "lurker"

/-- Three trigger inputs driving three passes. -/
def sampleInputs3 : List PassInput :=
  [samplePassInput [], samplePassInput [], samplePassInput []]

/-- A concrete entry-point output file inside the output directory. -/
def sampleMainFile : OutputFile where
  name := [r"out", r"main.lua"]
  text := "print"

/-- Witness for C3: a concrete three-pass session copies the shims on the
first pass only. -/
theorem c3_shims_copied_once_witness :
    (¬(sampleLume = "" ∧ sampleLurker = "")) ∧ 0 < sampleInputs3.length ∧
      (runSession sampleOutDir sampleLume sampleLurker sampleInputs3
            initialSessionState).1.map (fun r => r.shimCopied)
        = true :: List.replicate (sampleInputs3.length - 1) false :=
  ⟨by decide, by decide,
    (c3_shims_copied_once sampleOutDir sampleLume sampleLurker sampleInputs3
      (by decide) (by decide)).1⟩

/-- Witness for C4: a concrete three-pass session spawns the runtime once,
on the first pass. -/
theorem c4_runtime_spawned_once_witness :
    0 < sampleInputs3.length ∧
      (runSession sampleOutDir sampleLume sampleLurker sampleInputs3
            initialSessionState).1.map (fun r => r.spawned)
        = [{ cmd := lovecCommand, args := [sampleOutDir],
             stdio := [HostStream.stdin, HostStream.stdout, HostStream.stderr] }]
            :: List.replicate (sampleInputs3.length - 1) [] :=
  ⟨by decide,
    c4_runtime_spawned_once sampleOutDir sampleLume sampleLurker sampleInputs3 (by decide)⟩

/-- Witness for C6: a concrete pass emitting `out/main.lua` writes it as
the user content followed by one tail block. -/
theorem c6_entry_point_single_tail_witness :
    (basename sampleMainFile.name = mainFileName) ∧
      ((runPass sampleOutDir sampleLume sampleLurker initialSessionState
            (samplePassInput [sampleMainFile])).1.emitted.filter
          (fun f => f.name == sampleMainFile.name)
        = [{ name := sampleMainFile.name, text := sampleMainFile.text }]) ∧
      (sampleMainFile.name, sampleMainFile.text ++ "\n" ++ luaMainTail)
        ∈ (runPass sampleOutDir sampleLume sampleLurker initialSessionState
            (samplePassInput [sampleMainFile])).1.writes :=
  ⟨by decide, by decide,
    (c6_entry_point_single_tail sampleOutDir sampleLume sampleLurker initialSessionState
      (samplePassInput [sampleMainFile]) sampleMainFile.name sampleMainFile.text
      (by decide) (by decide)).1⟩

end LoveTS
